import Mathlib

/-!
Verification of the review-aggregation and LLM-response pipeline of the
app-gaps repository (src/app/api/analyze/route.ts), against its
natural-language specification.

Strings from the TypeScript source are modelled as `List Char` (one entry
per UTF-16 code unit of the JavaScript string; all inputs considered here
stay inside the basic multilingual plane, where code units and characters
coincide). Each definition below embeds the source function of the same
name; route-level control flow is embedded as a pure function over an
environment that supplies the outcomes of the external calls (request body
parse, review feed pages, completion endpoint).

The file is organised as definitions first, then theorems.
-/

namespace AppGaps

/-! ## Constants (route.ts lines 53-59) -/

def MAX_REVIEWS : Nat := 100

def MAX_TOKENS_PER_REVIEW : Nat := 1000

def MAX_TOTAL_TOKENS : Nat := 6000

def RSS_PAGES : Nat := 10

def MAX_REVIEWS_TOTAL : Nat := 500

/-! ## Token estimation and per-item truncation (route.ts lines 83-97) -/

/-- Embeds `estimateTokens`: `Math.ceil(text.length / 4)`, computed on
natural numbers as `(length + 3) / 4`. -/
def estimateTokens (text : List Char) : Nat := (text.length + 3) / 4

/-- The single-character ellipsis appended by `truncateToTokens` when it
cuts a text. -/
def truncationMarker : List Char := "…".data

/-- Embeds `truncateToTokens`: if the estimated token count is within
`maxTokens` the text is returned unchanged, otherwise it is cut to
`maxTokens * 4` code units (`text.slice(0, maxChars)`) and the ellipsis
marker is appended. -/
def truncateToTokens (text : List Char) (maxTokens : Nat) : List Char :=
  if estimateTokens text ≤ maxTokens then text
  else text.take (maxTokens * 4) ++ truncationMarker

/-! ## Aggregate token budget (route.ts lines 128-143) -/

/-- Embeds `reviews.slice(0, MAX_REVIEWS).map(review =>
truncateToTokens(review, MAX_TOKENS_PER_REVIEW))`. -/
def processReviews (reviews : List (List Char)) : List (List Char) :=
  (reviews.take MAX_REVIEWS).map (fun review => truncateToTokens review MAX_TOKENS_PER_REVIEW)

/-- Embeds `processedReviews.reduce((sum, review) => sum +
estimateTokens(review), 0)`. -/
def totalTokens (reviews : List (List Char)) : Nat :=
  (reviews.map estimateTokens).sum

/-- Embeds the source loop
`while (totalReviewTokens > MAX_TOTAL_TOKENS && processedReviews.length > 0)`
which pops the last element on each pass. Note that in the source
`totalReviewTokens` is a `const` bound before the loop and never
recomputed inside it, so the first argument here is fixed across
iterations, exactly as in the code. -/
def budgetDropLoop (totalReviewTokens : Nat) (processedReviews : List (List Char)) :
    List (List Char) :=
  if h : MAX_TOTAL_TOKENS < totalReviewTokens ∧ processedReviews ≠ [] then
    budgetDropLoop totalReviewTokens processedReviews.dropLast
  else processedReviews
termination_by processedReviews.length
decreasing_by
  have hpos : 0 < processedReviews.length := List.length_pos.mpr h.2
  simp only [List.length_dropLast]
  omega

/-- Embeds the aggregate-budget step of `analyzeReviewsWithGPT`
(route.ts lines 128-143): slice to 100 items, truncate each to the
per-item cap, then run the drop loop when the summed estimate exceeds
`MAX_TOTAL_TOKENS`. -/
def reduceReviews (reviews : List (List Char)) : List (List Char) :=
  let processedReviews := processReviews reviews
  let totalReviewTokens := totalTokens processedReviews
  if MAX_TOTAL_TOKENS < totalReviewTokens then
    budgetDropLoop totalReviewTokens processedReviews
  else processedReviews

/-- Modelled from the spec (section 4.3 step (d) and the claim text): while
the running sum of estimated tokens exceeds the aggregate cap, drop items
from the end of the sequence, recomputing the sum after each drop, until
under budget or the sequence is empty. Stated for comparison with the
behaviour the code actually has. -/
def specAggregateTrim (processedReviews : List (List Char)) : List (List Char) :=
  if h : MAX_TOTAL_TOKENS < totalTokens processedReviews then
    specAggregateTrim processedReviews.dropLast
  else processedReviews
termination_by processedReviews.length
decreasing_by
  have hne : processedReviews ≠ [] := by
    intro he
    rw [he] at h
    simp [totalTokens] at h
  have hpos : 0 < processedReviews.length := List.length_pos.mpr hne
  simp only [List.length_dropLast]
  omega

/-! ### Concrete inputs exercising the aggregate budget -/

/-- A review text of 4000 characters: estimated at exactly 1000 tokens,
so per-item truncation leaves it unchanged. -/
def review4000 : List Char := List.replicate 4000 'a'

/-- Seven such reviews: 7000 estimated tokens in total, which exceeds the
6000-token aggregate cap. -/
def sevenReviews : List (List Char) := List.replicate 7 review4000

/-- A review text of 4001 characters: estimated at 1001 tokens, so
per-item truncation cuts it. -/
def review4001 : List Char := List.replicate 4001 'a'

/-! ## Review entries and flattened review text (route.ts lines 8-32, 301-309) -/

/-- One entry of the review feed, keeping the fields the route reads:
the label of `im:rating`, of `title` and of `content`. `none` models an
absent object or label (the source reads them through optional chaining);
`some []` models a present but empty string. -/
structure Review where
  rating : Option (List Char)
  title : Option (List Char)
  content : Option (List Char)
deriving DecidableEq

/-- JavaScript `value || dflt` on an optionally-present string: the
default is used when the value is absent (undefined) or the empty string
(the only falsy string). -/
def jsStrOr (value : Option (List Char)) (dflt : List Char) : List Char :=
  match value with
  | none => dflt
  | some s => if s.isEmpty then dflt else s

/-- Embeds the flattening in POST:
the template string combining rating (defaulted to "0"), title and
content, as `[Rating: r/5] title` followed by a newline and the body. -/
def reviewText (review : Review) : List Char :=
  "[Rating: ".data ++ jsStrOr review.rating "0".data ++ "/5] ".data ++
    jsStrOr review.title [] ++ "\n".data ++ jsStrOr review.content []

/-- Embeds the map-and-filter in POST: flatten each review, then keep the
blocks of positive length (the `typeof` conjunct of the source predicate
is always true, every block being a string). -/
def reviewContents (reviews : List Review) : List (List Char) :=
  (reviews.map reviewText).filter (fun content => decide (0 < content.length))

/-! ## Paginated review fetch loop (route.ts lines 277-299) -/

/-- Embeds the page loop of POST. `pages k` is what `fetchReviewsPage`
returns for page `k` (that helper absorbs every network or decode failure
into an empty list, so an arbitrary function models it fully). The second
component counts the page requests issued. The loop body: stop on an
empty page; otherwise accumulate, and stop with truncation to
`MAX_REVIEWS_TOTAL` once the accumulated count reaches that threshold. -/
def fetchGo (pages : Nat → List Review) : Nat → Nat → List Review → List Review × Nat
  | _, 0, acc => (acc, 0)
  | page, fuel + 1, acc =>
    let reviews := pages page
    if reviews.length = 0 then (acc, 1)
    else if MAX_REVIEWS_TOTAL ≤ acc.length + reviews.length then
      ((acc ++ reviews).take MAX_REVIEWS_TOTAL, 1)
    else
      let r := fetchGo pages (page + 1) fuel (acc ++ reviews)
      (r.1, r.2 + 1)

/-- The whole fetch phase: pages 1 up to `RSS_PAGES`, empty accumulator. -/
def fetchAllReviews (pages : Nat → List Review) : List Review × Nat :=
  fetchGo pages 1 RSS_PAGES []

/-- Concatenation of the entries of `count` consecutive pages starting at
page `start`, in page order. -/
def pagesConcat (pages : Nat → List Review) : Nat → Nat → List Review
  | _start, 0 => []
  | start, count + 1 => pages start ++ pagesConcat pages (start + 1) count

/-- A sample review entry used by the fetch-loop witness. -/
def sampleReview : Review :=
  { rating := some "5".data, title := some "Great".data, content := some "Nice app".data }

/-- A page oracle for the witness: pages 1 to 3 carry two entries each,
page 4 and later pages are empty. -/
def samplePages : Nat → List Review :=
  fun n => if n ≤ 3 then [sampleReview, sampleReview] else []

/-! ## Identifier extraction (route.ts lines 257-272) -/

/-- The character class `\d` of the source regexes. -/
def isDigitChar (c : Char) : Bool := decide ('0' ≤ c) && decide (c ≤ '9')

/-- Embeds the test of the anchored regex on 7 to 12 digits applied to
the trimmed input. -/
def matchesAppId (cs : List Char) : Bool :=
  decide (7 ≤ cs.length) && decide (cs.length ≤ 12) && cs.all isDigitChar

/-- JavaScript string trimming removes the ECMAScript WhiteSpace and
LineTerminator characters: tab, line feed, vertical tab, form feed,
carriage return, space, no-break space, the Ogham space mark, the
Space_Separator range U+2000 to U+200A, the line and paragraph
separators, the narrow no-break space, the medium mathematical space,
the ideographic space and the byte-order mark. -/
def jsWhitespace (c : Char) : Bool :=
  c = ' ' || c = '\t' || c = '\n' || c = '\r' || c = '\x0b' || c = '\x0c' ||
    c = Char.ofNat 160 || c = Char.ofNat 5760 ||
    (decide (8192 ≤ c.toNat) && decide (c.toNat ≤ 8202)) ||
    c = Char.ofNat 8232 || c = Char.ofNat 8233 || c = Char.ofNat 8239 ||
    c = Char.ofNat 8287 || c = Char.ofNat 12288 || c = Char.ofNat 65279

/-- Embeds `input.trim()`. -/
def jsTrim (cs : List Char) : List Char :=
  ((cs.dropWhile jsWhitespace).reverse.dropWhile jsWhitespace).reverse

/-- One attempted match of the URL regex at the head of the text: the
literal `/id` followed by at least 7 digits; the captured group is the
greedy run of digits, at most 12 of them. -/
def idDigitsAfter (cs : List Char) : Option (List Char) :=
  match cs with
  | a :: b :: c :: rest =>
    if a = '/' ∧ b = 'i' ∧ c = 'd' then
      let ds := rest.takeWhile isDigitChar
      if 7 ≤ ds.length then some (ds.take 12) else none
    else none
  | _ => none

/-- Embeds `input.match` with the `/id` digits regex: the regex engine
tries each start position from the left and returns the first capture. -/
def matchIdUrl : List Char → Option (List Char)
  | [] => none
  | c :: rest =>
    match idDigitsAfter (c :: rest) with
    | some g => some g
    | none => matchIdUrl rest

/-- Embeds the identifier extraction of POST: accept the trimmed input if
it is 7 to 12 digits, otherwise search the raw input for a `/id` digit
group. -/
def extractAppId (input : List Char) : Option (List Char) :=
  if matchesAppId (jsTrim input) then some (jsTrim input)
  else matchIdUrl input

/-- Specification-side predicate, following the claim text: position `i`
of the text starts the literal `/id` immediately followed by a group of 7
to 12 digits. -/
def idGroupAtPos (cs : List Char) (i : Nat) : Prop :=
  ∃ ds post, cs.drop i = '/' :: 'i' :: 'd' :: (ds ++ post) ∧
    7 ≤ ds.length ∧ ds.length ≤ 12 ∧ ds.all isDigitChar = true

/-- Specification-side predicate: the text contains `/id` followed by 7
to 12 digits somewhere. -/
def hasIdGroup (cs : List Char) : Prop := ∃ i, idGroupAtPos cs i

/-! ## JSON values and the embedded `JSON.parse` (route.ts lines 196-211) -/

/-- A parsed JSON value. Numbers are kept exactly as mantissa times a
power of ten, which determines the one JavaScript-relevant fact about
them here: whether the value is zero (falsy). Object fields are kept in
source order; duplicate keys are resolved to the last occurrence at
lookup time, as `JSON.parse` does. -/
inductive Json where
  | null
  | bool (b : Bool)
  | num (mantissa : Int) (exp10 : Int)
  | str (s : List Char)
  | arr (elems : List Json)
  | obj (fields : List (List Char × Json))

/-- Whether a JSON value is an array. -/
def Json.isArr : Json → Bool
  | Json.arr _ => true
  | _ => false

/-- The insignificant-whitespace class of JSON. -/
def isJsonWs (c : Char) : Bool := c = ' ' || c = '\t' || c = '\n' || c = '\r'

def skipWs (cs : List Char) : List Char := cs.dropWhile isJsonWs

def hexDigitVal (c : Char) : Option Nat :=
  if '0' ≤ c ∧ c ≤ '9' then some (c.toNat - 48)
  else if 'a' ≤ c ∧ c ≤ 'f' then some (c.toNat - 87)
  else if 'A' ≤ c ∧ c ≤ 'F' then some (c.toNat - 55)
  else none

/-- One string escape sequence after a backslash. A `\u` escape denoting
a surrogate code unit has no counterpart scalar value; `Char.ofNat` maps
it to the null character (no claim exercises that corner). -/
def readEscape (cs : List Char) : Option (Char × List Char) :=
  match cs with
  | [] => none
  | e :: rest =>
    if e = '\"' then some ('\"', rest)
    else if e = '\\' then some ('\\', rest)
    else if e = '/' then some ('/', rest)
    else if e = 'b' then some ('\x08', rest)
    else if e = 'f' then some ('\x0c', rest)
    else if e = 'n' then some ('\n', rest)
    else if e = 'r' then some ('\r', rest)
    else if e = 't' then some ('\t', rest)
    else if e = 'u' then
      match rest with
      | h1 :: h2 :: h3 :: h4 :: rest4 =>
        match hexDigitVal h1, hexDigitVal h2, hexDigitVal h3, hexDigitVal h4 with
        | some a, some b, some c, some d =>
          some (Char.ofNat (((a * 16 + b) * 16 + c) * 16 + d), rest4)
        | _, _, _, _ => none
      | _ => none
    else none

/-- Body of a JSON string after the opening quote: plain characters and
escapes up to the closing quote; raw control characters are rejected.
The fuel only bounds the recursion and one unit per consumed character
suffices. -/
def parseStringBody : Nat → List Char → Option (List Char × List Char)
  | 0, _ => none
  | fuel + 1, cs =>
    match cs with
    | [] => none
    | c :: rest =>
      if c = '\"' then some ([], rest)
      else if c = '\\' then
        match readEscape rest with
        | some (ch, r) => (parseStringBody fuel r).map (fun p => (ch :: p.1, p.2))
        | none => none
      else if c.toNat < 32 then none
      else (parseStringBody fuel rest).map (fun p => (c :: p.1, p.2))

def digitsToNat (ds : List Char) : Nat :=
  ds.foldl (fun a c => a * 10 + (c.toNat - 48)) 0

/-- Optional fraction part: a dot followed by at least one digit. -/
def parseFracPart (cs : List Char) : Option (List Char × List Char) :=
  match cs with
  | '.' :: r =>
    let ds := r.takeWhile isDigitChar
    if ds.isEmpty then none else some (ds, r.dropWhile isDigitChar)
  | _ => some ([], cs)

/-- Optional exponent part: `e` or `E`, an optional sign, then at least
one digit. -/
def parseExpPart (cs : List Char) : Option (Int × List Char) :=
  match cs with
  | c :: r =>
    if c = 'e' ∨ c = 'E' then
      let signAndRest : Int × List Char :=
        match r with
        | '+' :: r2 => (1, r2)
        | '-' :: r2 => (-1, r2)
        | _ => (1, r)
      let ds := signAndRest.2.takeWhile isDigitChar
      if ds.isEmpty then none
      else some (signAndRest.1 * (digitsToNat ds : Int), signAndRest.2.dropWhile isDigitChar)
    else some (0, cs)
  | [] => some (0, [])

/-- A JSON number: optional minus, an integer part with no leading zero,
optional fraction and exponent. -/
def parseNumber (cs : List Char) : Option (Json × List Char) :=
  let signAndRest : Int × List Char :=
    match cs with
    | '-' :: r => (-1, r)
    | _ => (1, cs)
  let ids := signAndRest.2.takeWhile isDigitChar
  let rest1 := signAndRest.2.dropWhile isDigitChar
  if ids.isEmpty then none
  else if 2 ≤ ids.length ∧ ids.head? = some '0' then none
  else
    match parseFracPart rest1 with
    | none => none
    | some (fds, rest2) =>
      match parseExpPart rest2 with
      | none => none
      | some (e, rest3) =>
        some (Json.num (signAndRest.1 * (digitsToNat (ids ++ fds) : Int))
          (e - (fds.length : Int)), rest3)

/-- The opening curly bracket character. -/
def lbraceChar : Char := Char.ofNat 123

/-- The closing curly bracket character. -/
def rbraceChar : Char := Char.ofNat 125

mutual

/-- One JSON value, preceded by optional whitespace. The fuel bounds the
recursion depth; every recursive call consumes at least one character of
input first, so the initial fuel chosen by `jsonParse` never runs out on
a well-formed document. -/
def parseVal : Nat → List Char → Option (Json × List Char)
  | 0, _ => none
  | fuel + 1, cs =>
    match skipWs cs with
    | [] => none
    | c :: rest =>
      if c = 'n' then
        match rest with
        | 'u' :: 'l' :: 'l' :: r => some (Json.null, r)
        | _ => none
      else if c = 't' then
        match rest with
        | 'r' :: 'u' :: 'e' :: r => some (Json.bool true, r)
        | _ => none
      else if c = 'f' then
        match rest with
        | 'a' :: 'l' :: 's' :: 'e' :: r => some (Json.bool false, r)
        | _ => none
      else if c = '\"' then
        (parseStringBody rest.length rest).map (fun p => (Json.str p.1, p.2))
      else if c = '[' then
        parseArr fuel rest
      else if c = lbraceChar then
        parseObj fuel rest
      else if c = '-' ∨ isDigitChar c = true then
        parseNumber (c :: rest)
      else none

/-- Array elements after the opening square bracket. -/
def parseArr : Nat → List Char → Option (Json × List Char)
  | 0, _ => none
  | fuel + 1, cs =>
    match skipWs cs with
    | ']' :: r => some (Json.arr [], r)
    | _ =>
      match parseVal fuel cs with
      | none => none
      | some (v, r) => parseArrRest fuel [v] r

/-- Continuation of an array after at least one parsed element; the
accumulator holds the elements in reverse. -/
def parseArrRest : Nat → List Json → List Char → Option (Json × List Char)
  | 0, _, _ => none
  | fuel + 1, acc, cs =>
    match skipWs cs with
    | ']' :: r => some (Json.arr acc.reverse, r)
    | ',' :: r =>
      match parseVal fuel r with
      | none => none
      | some (v, r2) => parseArrRest fuel (v :: acc) r2
    | _ => none

/-- One `key : value` member of an object. -/
def parseMember : Nat → List Char → Option ((List Char × Json) × List Char)
  | 0, _ => none
  | fuel + 1, cs =>
    match skipWs cs with
    | '\"' :: r =>
      match parseStringBody r.length r with
      | none => none
      | some (k, r2) =>
        match skipWs r2 with
        | ':' :: r3 => (parseVal fuel r3).map (fun p => ((k, p.1), p.2))
        | _ => none
    | _ => none

/-- Object members after the opening curly bracket. -/
def parseObj : Nat → List Char → Option (Json × List Char)
  | 0, _ => none
  | fuel + 1, cs =>
    match skipWs cs with
    | [] => none
    | c :: r =>
      if c = rbraceChar then some (Json.obj [], r)
      else
        match parseMember fuel (c :: r) with
        | none => none
        | some (kv, r2) => parseObjRest fuel [kv] r2

/-- Continuation of an object after at least one parsed member; the
accumulator holds the members in reverse. -/
def parseObjRest : Nat → List (List Char × Json) → List Char → Option (Json × List Char)
  | 0, _, _ => none
  | fuel + 1, acc, cs =>
    match skipWs cs with
    | [] => none
    | c :: r =>
      if c = rbraceChar then some (Json.obj acc.reverse, r)
      else if c = ',' then
        match parseMember fuel r with
        | none => none
        | some (kv, r2) => parseObjRest fuel (kv :: acc) r2
      else none

end

/-- Embeds `JSON.parse`: parse one value and require only trailing
whitespace after it. The fuel `2 * length + 8` dominates the recursion
depth: at least one input character is consumed between consecutive fuel
decrements along any successful path. -/
def jsonParse (cs : List Char) : Option Json :=
  match parseVal (2 * cs.length + 8) cs with
  | some (v, rest) => if (skipWs rest).isEmpty then some v else none
  | none => none

/-! ## Property projection with JavaScript semantics (route.ts lines 203-206) -/

/-- Last-occurrence field lookup, matching the object that `JSON.parse`
builds by assigning fields in order. -/
def lookupField (fields : List (List Char × Json)) (key : List Char) : Option Json :=
  fields.foldl (fun acc kv => if kv.1 = key then some kv.2 else acc) none

/-- The value of `v[key]` when `v` is not null: a present object field,
otherwise undefined (`none`); primitives, arrays and strings have no own
field under the keys used here. -/
def propLookup (v : Json) (key : List Char) : Option Json :=
  match v with
  | Json.obj fields => lookupField fields key
  | _ => none

/-- JavaScript property access `v.key`: on null it throws a TypeError
(modelled as the outer `none`); otherwise it yields a defined value or
undefined. -/
def jsGetProp (v : Json) (key : List Char) : Option (Option Json) :=
  match v with
  | Json.null => none
  | _ => some (propLookup v key)

/-- JavaScript truthiness of a parsed JSON value. -/
def truthy : Json → Bool
  | Json.null => false
  | Json.bool b => b
  | Json.num m _ => m != 0
  | Json.str s => !s.isEmpty
  | Json.arr _ => true
  | Json.obj _ => true

/-- JavaScript `value || []` on a possibly-undefined value. -/
def jsOrEmptyArr (value : Option Json) : Json :=
  match value with
  | none => Json.arr []
  | some v => if truthy v then v else Json.arr []

/-! ## Response cleaning (route.ts line 200) -/

/-- The head alternative of the cleaning regex: a leading fence marker
with an optional newline, anchored at the start. -/
def stripFenceStart (cs : List Char) : List Char :=
  if cs.take 8 = "```json\n".data then cs.drop 8
  else if cs.take 7 = "```json".data then cs.drop 7
  else cs

/-- The tail alternative of the cleaning regex: a closing fence with an
optional preceding newline, anchored at the end. -/
def stripFenceEnd (cs : List Char) : List Char :=
  if 4 ≤ cs.length ∧ cs.drop (cs.length - 4) = "\n```".data then cs.take (cs.length - 4)
  else if 3 ≤ cs.length ∧ cs.drop (cs.length - 3) = "```".data then cs.take (cs.length - 3)
  else cs

/-- Embeds `response.trim().replace(...)` with the fence-stripping
regex: the anchored head alternative can only match at the start and the
anchored tail alternative only at the end, so the global replace equals
stripping a head marker and then a tail marker. -/
def cleanResponse (response : List Char) : List Char :=
  stripFenceEnd (stripFenceStart (jsTrim response))

/-! ## Errors, analysis results and response parsing (route.ts lines 62-81, 196-211) -/

/-- The error classes of the route: `ValidationError` carries HTTP status
400 and `APIConnectionError` status 503. The base `AppError` class is
never instantiated directly by the route, so it has no constructor
here. -/
inductive AppError where
  | validation (message : List Char)
  | apiConnection (message : List Char)
deriving DecidableEq

def AppError.status : AppError → Nat
  | AppError.validation _ => 400
  | AppError.apiConnection _ => 503

def AppError.message : AppError → List Char
  | AppError.validation m => m
  | AppError.apiConnection m => m

/-- The projected analysis object returned on success. The fields carry
whatever JSON values the projection produced (the route performs no
deeper validation). -/
structure Analysis where
  themes : Json
  prioritizedThemes : Json

def parseFailMsg : List Char := "Failed to parse analysis response".data

/-- Embeds the response handling of `analyzeReviewsWithGPT` (route.ts
lines 196-211): clean the raw text, `JSON.parse` it, then project the two
fields with `|| []`. A parse failure raises `ValidationError`; so does
the TypeError thrown by the field access when the parsed value is null,
since the same catch block converts every exception there. -/
def parseAnalysis (response : List Char) : Except AppError Analysis :=
  match jsonParse (cleanResponse response) with
  | none => Except.error (AppError.validation parseFailMsg)
  | some parsed =>
    match jsGetProp parsed "themes".data, jsGetProp parsed "prioritizedThemes".data with
    | some t, some p =>
      Except.ok { themes := jsOrEmptyArr t, prioritizedThemes := jsOrEmptyArr p }
    | _, _ => Except.error (AppError.validation parseFailMsg)

/-! ## The route as a function of its environment (route.ts lines 122-219, 249-330) -/

/-- Outcome of the completion call: `failure` models any exception from
the client library (transport, authentication, quota), `success content`
a completed call whose message content may be absent. -/
inductive CompletionOutcome where
  | failure
  | success (content : Option (List Char))

/-- The environment of one request: the parsed request body (`error`
models a body that fails to parse or destructure, `ok none` an absent or
non-string input field), whether the OpenAI key is configured, the page
oracle, the completion outcome as a function of the processed review
blocks sent upstream, and the app metadata object, which the route passes
through untouched. -/
structure Env where
  body : Except Unit (Option (List Char))
  apiKeyConfigured : Bool
  pages : Nat → List Review
  completion : List (List Char) → CompletionOutcome
  appInfo : Json

/-- Embeds `analyzeReviewsWithGPT`: fail fast on a missing key, reduce
the reviews under the token budgets, call the completion endpoint, then
parse. Any client exception becomes `APIConnectionError`; `AppError`
instances are re-thrown unchanged by the outer catch. The raw response
text is the message content defaulted to the empty string. -/
def analyzeReviewsWithGPT (env : Env) (reviews : List (List Char)) :
    Except AppError Analysis :=
  if env.apiKeyConfigured = false then
    Except.error (AppError.validation "OpenAI API key is not configured".data)
  else
    let processedReviews := reduceReviews reviews
    match env.completion processedReviews with
    | CompletionOutcome.failure =>
      Except.error (AppError.apiConnection "Failed to analyze reviews".data)
    | CompletionOutcome.success content =>
      parseAnalysis (jsStrOr content [])

/-- A failure of the POST handler: a thrown `AppError`, or any other
exception (only the request-body parse can raise one in this model). -/
inductive PostError where
  | app (e : AppError)
  | unclassified

def missingInputMsg : List Char :=
  "Missing or invalid input. Please provide an App Store URL or App Store ID.".data

def invalidInputMsg : List Char :=
  "Invalid input. Please provide a valid App Store URL or App Store ID.".data

/-- The body of the POST try block: read the input, validate and extract
the identifier, fetch the pages, flatten the reviews, analyze. The
metadata lookup never throws and its result is carried through by
`POST`. -/
def postCore (env : Env) : Except PostError Analysis :=
  match env.body with
  | Except.error _ => Except.error PostError.unclassified
  | Except.ok none => Except.error (PostError.app (AppError.validation missingInputMsg))
  | Except.ok (some input) =>
    if input.isEmpty then Except.error (PostError.app (AppError.validation missingInputMsg))
    else
      match extractAppId input with
      | none => Except.error (PostError.app (AppError.validation invalidInputMsg))
      | some _appId =>
        match analyzeReviewsWithGPT env (reviewContents (fetchAllReviews env.pages).1) with
        | Except.error e => Except.error (PostError.app e)
        | Except.ok a => Except.ok a

/-- The error body `{ error, themes: [], prioritizedThemes: [] }`. -/
def errorBody (message : List Char) : Json :=
  Json.obj [("error".data, Json.str message),
    ("themes".data, Json.arr []), ("prioritizedThemes".data, Json.arr [])]

/-- Embeds the POST handler with its catch block: status and JSON body.
An `AppError` is reported with its own status and message; anything else
becomes a generic 500. -/
def POST (env : Env) : Nat × Json :=
  match postCore env with
  | Except.ok a =>
    (200, Json.obj [("themes".data, a.themes),
      ("prioritizedThemes".data, a.prioritizedThemes), ("appInfo".data, env.appInfo)])
  | Except.error (PostError.app e) => (e.status, errorBody e.message)
  | Except.error PostError.unclassified => (500, errorBody "Failed to process request".data)

/-! ### Concrete completion payloads for the validator claims -/

/-- The fenced payload of the spec: three backticks, `json`, a newline,
the empty-arrays object, a newline and a closing fence. -/
def fencedEmptyResponse : List Char :=
  "```json\n\x7b\"themes\":[],\"prioritizedThemes\":[]\x7d\n```".data

def notJsonResponse : List Char := "not json".data

/-- The payload `null`: valid JSON whose parse succeeds, after which the
field access throws. -/
def nullResponse : List Char := "null".data

/-- A payload whose `themes` field is a non-array truthy value. -/
def strThemesResponse : List Char := "\x7b\"themes\":\"hi\"\x7d".data

/-- The value `strThemesResponse` parses to. -/
def strThemesJson : Json := Json.obj [("themes".data, Json.str "hi".data)]

/-! ### Concrete environments for the route-level claims -/

/-- An environment whose completion call succeeds with no message
content: a valid identifier, a configured key, an exhausted feed. -/
def envEmptyCompletion : Env :=
  { body := Except.ok (some "284882215".data)
    apiKeyConfigured := true
    pages := fun _ => []
    completion := fun _ => CompletionOutcome.success none
    appInfo := Json.null }

/-- An environment whose request body fails to parse. -/
def envBadBody : Env :=
  { body := Except.error ()
    apiKeyConfigured := false
    pages := fun _ => []
    completion := fun _ => CompletionOutcome.failure
    appInfo := Json.null }

/-- An environment whose completion call throws. -/
def envUpstreamFailure : Env :=
  { body := Except.ok (some "284882215".data)
    apiKeyConfigured := true
    pages := fun _ => []
    completion := fun _ => CompletionOutcome.failure
    appInfo := Json.null }

/-! # Theorems -/

/-! ## Helper lemmas about the budget loop -/

theorem budgetDropLoop_of_over (t : Nat) (ht : MAX_TOTAL_TOKENS < t) :
    ∀ p : List (List Char), budgetDropLoop t p = [] := by
  intro p
  induction p using List.reverseRecOn with
  | nil =>
    rw [budgetDropLoop]
    simp
  | append_singleton xs x ih =>
    rw [budgetDropLoop]
    have hcond : MAX_TOTAL_TOKENS < t ∧ xs ++ [x] ≠ [] := by
      refine ⟨ht, by simp⟩
    rw [dif_pos hcond, List.dropLast_concat]
    exact ih

theorem reduceReviews_eq (reviews : List (List Char)) :
    reduceReviews reviews =
      if MAX_TOTAL_TOKENS < totalTokens (processReviews reviews) then []
      else processReviews reviews := by
  unfold reduceReviews
  by_cases h : MAX_TOTAL_TOKENS < totalTokens (processReviews reviews)
  · simp only [h, if_true]
    exact budgetDropLoop_of_over _ h _
  · simp only [h, if_false]

theorem estimateTokens_review4000 : estimateTokens review4000 = 1000 := by
  unfold estimateTokens review4000
  rw [List.length_replicate]

theorem estimateTokens_review4001 : estimateTokens review4001 = 1001 := by
  unfold estimateTokens review4001
  rw [List.length_replicate]

theorem totalTokens_replicate (n : Nat) (r : List Char) :
    totalTokens (List.replicate n r) = n * estimateTokens r := by
  simp [totalTokens, List.sum_replicate, Nat.smul_one_eq_cast]

theorem processReviews_sevenReviews : processReviews sevenReviews = sevenReviews := by
  unfold processReviews sevenReviews
  rw [List.take_replicate, List.map_replicate]
  have h1 : truncateToTokens review4000 MAX_TOKENS_PER_REVIEW = review4000 := by
    unfold truncateToTokens
    rw [estimateTokens_review4000]
    simp [MAX_TOKENS_PER_REVIEW]
  rw [h1]
  rfl

theorem totalTokens_sevenReviews : totalTokens sevenReviews = 7000 := by
  rw [sevenReviews, totalTokens_replicate, estimateTokens_review4000]

/-! ## C1 -/

/-- C1: code bug. For the concrete input of seven 4000-character reviews
(7000 estimated tokens, over the 6000 cap), the code empties the whole
sequence, while the drop-until-under-budget step described by the spec
retains the first six reviews (exactly 6000 tokens). The cause in the
source is that `totalReviewTokens` is a `const` never recomputed inside
the while loop, so once entered the loop only stops when the list is
empty. -/
theorem C1_aggregate_budget_code_bug :
    reduceReviews sevenReviews = [] ∧
    specAggregateTrim (processReviews sevenReviews) = List.replicate 6 review4000 ∧
    MAX_TOTAL_TOKENS < totalTokens (processReviews sevenReviews) ∧
    totalTokens (List.replicate 6 review4000) = MAX_TOTAL_TOKENS := by
  have hover : MAX_TOTAL_TOKENS < totalTokens (processReviews sevenReviews) := by
    rw [processReviews_sevenReviews, totalTokens_sevenReviews]
    norm_num [MAX_TOTAL_TOKENS]
  have hsix : totalTokens (List.replicate 6 review4000) = MAX_TOTAL_TOKENS := by
    rw [totalTokens_replicate, estimateTokens_review4000]
    rfl
  refine ⟨?_, ?_, hover, hsix⟩
  · rw [reduceReviews_eq, if_pos hover]
  · rw [processReviews_sevenReviews]
    rw [specAggregateTrim]
    have h7 : totalTokens sevenReviews = 7000 := totalTokens_sevenReviews
    rw [dif_pos (by rw [h7]; norm_num [MAX_TOTAL_TOKENS])]
    have hdrop : sevenReviews.dropLast = List.replicate 6 review4000 := by
      rw [sevenReviews, List.replicate_succ' 6, List.dropLast_concat]
    rw [hdrop, specAggregateTrim,
      dif_neg (by rw [hsix]; exact lt_irrefl _)]

/-! ## C4 -/

/-- C4: confirmed. For every input list of review strings, the reduced
output has summed estimated tokens at most the 6000-token aggregate cap,
and the output extends to the full per-item-truncated list by appending a
tail: whole items are removed from the end only, order preserved, no item
split. (When the budget is exceeded the code removes every item, which
still satisfies this safety property.) -/
theorem C4_aggregate_cap_and_tail_removal (reviews : List (List Char)) :
    totalTokens (reduceReviews reviews) ≤ MAX_TOTAL_TOKENS ∧
    ∃ rest, reviews.map (fun review => truncateToTokens review MAX_TOKENS_PER_REVIEW) =
      reduceReviews reviews ++ rest := by
  rw [reduceReviews_eq]
  by_cases h : MAX_TOTAL_TOKENS < totalTokens (processReviews reviews)
  · rw [if_pos h]
    exact ⟨by simp [totalTokens], ⟨_, rfl⟩⟩
  · rw [if_neg h]
    refine ⟨Nat.le_of_not_lt h, ?_⟩
    refine ⟨(reviews.map (fun review => truncateToTokens review MAX_TOKENS_PER_REVIEW)).drop
      MAX_REVIEWS, ?_⟩
    unfold processReviews
    rw [List.map_take]
    exact (List.take_append_drop _ _).symm

/-! ## C3 -/

/-- C3: counterexample. After per-item truncation at the 1000-token cap,
the 4001-character review becomes 4000 characters plus the one-character
ellipsis marker, for 4001 characters in total, whose estimated token
count is 1001: strictly above the cap the claim asserts. -/
theorem C3_per_item_cap_counterexample :
    MAX_TOKENS_PER_REVIEW <
      estimateTokens (truncateToTokens review4001 MAX_TOKENS_PER_REVIEW) := by
  unfold truncateToTokens
  rw [estimateTokens_review4001]
  rw [if_neg (by norm_num [MAX_TOKENS_PER_REVIEW])]
  unfold estimateTokens MAX_TOKENS_PER_REVIEW review4001
  have hm : truncationMarker.length = 1 := rfl
  simp only [List.length_append, List.length_take, List.length_replicate, hm]
  omega

/-- C3: amended. The block retained after per-item truncation has an
estimated token count of at most 1001 (the 1000-token cap plus one): it is
at most the cap exactly when the text is kept whole, and equals cap plus
one when the text is cut, because the appended one-character marker pushes
the 4000 kept characters to 4001. The marker is appended exactly when the
original estimate exceeds the cap. -/
theorem C3_per_item_cap_amended (text : List Char) :
    estimateTokens (truncateToTokens text MAX_TOKENS_PER_REVIEW) ≤ MAX_TOKENS_PER_REVIEW + 1 ∧
    (estimateTokens text ≤ MAX_TOKENS_PER_REVIEW →
      truncateToTokens text MAX_TOKENS_PER_REVIEW = text) ∧
    (MAX_TOKENS_PER_REVIEW < estimateTokens text →
      truncateToTokens text MAX_TOKENS_PER_REVIEW =
        text.take (MAX_TOKENS_PER_REVIEW * 4) ++ truncationMarker ∧
      estimateTokens (truncateToTokens text MAX_TOKENS_PER_REVIEW) =
        MAX_TOKENS_PER_REVIEW + 1) := by
  unfold truncateToTokens
  by_cases h : estimateTokens text ≤ MAX_TOKENS_PER_REVIEW
  · rw [if_pos h]
    exact ⟨Nat.le_succ_of_le h, fun _ => rfl, fun hlt => absurd h (Nat.not_le.mpr hlt)⟩
  · rw [if_neg h]
    have hlen : 4001 ≤ text.length := by
      have := Nat.lt_of_not_le h
      unfold estimateTokens MAX_TOKENS_PER_REVIEW at this
      omega
    have hest : estimateTokens (text.take (MAX_TOKENS_PER_REVIEW * 4) ++ truncationMarker) =
        MAX_TOKENS_PER_REVIEW + 1 := by
      have hm : truncationMarker.length = 1 := rfl
      unfold estimateTokens MAX_TOKENS_PER_REVIEW
      simp only [List.length_append, List.length_take, hm, inf_eq_min]
      omega
    exact ⟨by rw [hest], fun hle => absurd hle h, fun _ => ⟨rfl, hest⟩⟩

/-- C3 witness: the amended theorem applied to the concrete 4001-character
review, discharging the over-cap hypothesis there. -/
theorem C3_per_item_cap_witness :
    estimateTokens (truncateToTokens review4001 MAX_TOKENS_PER_REVIEW) =
      MAX_TOKENS_PER_REVIEW + 1 :=
  ((C3_per_item_cap_amended review4001).2.2
    (by rw [estimateTokens_review4001]; norm_num [MAX_TOKENS_PER_REVIEW])).2

/-! ## Helper lemmas about the fetch loop -/

theorem fetchGo_requests_le (pages : Nat → List Review) :
    ∀ fuel page acc, (fetchGo pages page fuel acc).2 ≤ fuel := by
  intro fuel
  induction fuel with
  | zero => intro page acc; simp [fetchGo]
  | succ n ih =>
    intro page acc
    unfold fetchGo
    by_cases h0 : (pages page).length = 0
    · simp only [h0, if_true]
      omega
    · simp only [h0, if_false]
      by_cases h1 : MAX_REVIEWS_TOTAL ≤ acc.length + (pages page).length
      · simp only [h1, if_true]
        omega
      · simp only [h1, if_false]
        have := ih (page + 1) (acc ++ pages page)
        omega

theorem fetchGo_length_le (pages : Nat → List Review) :
    ∀ fuel page acc, acc.length ≤ MAX_REVIEWS_TOTAL →
      (fetchGo pages page fuel acc).1.length ≤ MAX_REVIEWS_TOTAL := by
  intro fuel
  induction fuel with
  | zero => intro page acc hacc; simpa [fetchGo] using hacc
  | succ n ih =>
    intro page acc hacc
    unfold fetchGo
    by_cases h0 : (pages page).length = 0
    · simpa [h0] using hacc
    · simp only [h0, if_false]
      by_cases h1 : MAX_REVIEWS_TOTAL ≤ acc.length + (pages page).length
      · simp only [h1, if_true, List.length_take]
        omega
      · simp only [h1, if_false]
        exact ih (page + 1) (acc ++ pages page) (by rw [List.length_append]; omega)

theorem fetchGo_stops_at_empty (pages : Nat → List Review) :
    ∀ count page acc fuel, count < fuel →
      pages (page + count) = [] →
      (∀ j, j < count → pages (page + j) ≠ []) →
      (∀ j, j < count →
        acc.length + (pagesConcat pages page (j + 1)).length < MAX_REVIEWS_TOTAL) →
      fetchGo pages page fuel acc = (acc ++ pagesConcat pages page count, count + 1) := by
  intro count
  induction count with
  | zero =>
    intro page acc fuel hfuel hempty _ _
    obtain ⟨f, rfl⟩ : ∃ f, fuel = f + 1 := ⟨fuel - 1, by omega⟩
    rw [Nat.add_zero] at hempty
    unfold fetchGo
    simp [hempty, pagesConcat]
  | succ c ih =>
    intro page acc fuel hfuel hempty hne hsum
    obtain ⟨f, rfl⟩ : ∃ f, fuel = f + 1 := ⟨fuel - 1, by omega⟩
    have hne0 : pages page ≠ [] := by
      have := hne 0 (Nat.succ_pos c)
      simpa using this
    have hlen0 : acc.length + (pages page).length < MAX_REVIEWS_TOTAL := by
      have := hsum 0 (Nat.succ_pos c)
      simpa [pagesConcat] using this
    unfold fetchGo
    rw [if_neg (by simpa [List.length_eq_zero] using hne0),
      if_neg (by omega)]
    have ihr := ih (page + 1) (acc ++ pages page) f (by omega)
      (by rw [show page + 1 + c = page + (c + 1) by omega]; exact hempty)
      (fun j hj => by
        have := hne (j + 1) (by omega)
        rwa [Nat.add_comm j 1, ← Nat.add_assoc] at this)
      (fun j hj => by
        have := hsum (j + 1) (by omega)
        rw [List.length_append]
        have hpc : pagesConcat pages page (j + 2) =
            pages page ++ pagesConcat pages (page + 1) (j + 1) := rfl
        rw [hpc, List.length_append] at this
        omega)
    rw [ihr]
    simp only [pagesConcat, List.append_assoc]

/-! ## C5 -/

/-- C5: confirmed. The fetch loop issues at most `RSS_PAGES = 10` page
requests and returns at most `MAX_REVIEWS_TOTAL = 500` entries, for every
page oracle. Moreover, whenever iteration reaches an empty page (page `k`
within the ceiling, the pages before it nonempty and their accumulated
entry counts below the sufficiency threshold), it stops at that page after
exactly `k` requests and returns exactly the concatenation of the entries
of pages `1 .. k-1` in page order, regardless of the contents of later
pages (the result does not mention them). -/
theorem C5_paginated_fetcher :
    (∀ pages, (fetchAllReviews pages).2 ≤ RSS_PAGES ∧
      (fetchAllReviews pages).1.length ≤ MAX_REVIEWS_TOTAL) ∧
    (∀ pages k, 1 ≤ k → k ≤ RSS_PAGES → pages k = [] →
      (∀ j, 1 ≤ j → j < k → pages j ≠ []) →
      (∀ j, 1 ≤ j → j < k → (pagesConcat pages 1 j).length < MAX_REVIEWS_TOTAL) →
      fetchAllReviews pages = (pagesConcat pages 1 (k - 1), k)) := by
  constructor
  · intro pages
    exact ⟨fetchGo_requests_le pages RSS_PAGES 1 [],
      fetchGo_length_le pages RSS_PAGES 1 [] (by simp [MAX_REVIEWS_TOTAL])⟩
  · intro pages k hk1 hk10 hkempty hne hsum
    unfold fetchAllReviews
    have h := fetchGo_stops_at_empty pages (k - 1) 1 [] RSS_PAGES
      (by unfold RSS_PAGES at hk10 ⊢; omega)
      (by rw [show 1 + (k - 1) = k by omega]; exact hkempty)
      (fun j hj => by
        have := hne (1 + j) (by omega) (by omega)
        simpa using this)
      (fun j hj => by
        have := hsum (j + 1) (by omega) (by omega)
        simpa [Nat.add_comm] using this)
    rw [h]
    simp only [List.nil_append]
    congr 1
    omega

/-- C5 witness: the fetcher theorem applied at the concrete page oracle,
with every hypothesis discharged at `k = 4`: it stops at the empty page 4
and returns the six entries of pages 1 to 3 after four requests. -/
theorem C5_paginated_fetcher_witness :
    fetchAllReviews samplePages = (pagesConcat samplePages 1 3, 4) :=
  C5_paginated_fetcher.2 samplePages 4 (by norm_num) (by norm_num [RSS_PAGES]) rfl
    (fun j h1 h2 => by interval_cases j <;> simp [samplePages])
    (fun j h1 h2 => by
      interval_cases j <;> simp [pagesConcat, samplePages, MAX_REVIEWS_TOTAL])

/-! ## C9 -/

/-- C9: confirmed. Every flattened review block starts with the literal
rating bracket, hence has positive length, so the positive-length filter
keeps every entry and the reducer receives exactly one block per fetched
review, even for a ratings-only review with empty title and body. -/
theorem C9_flatten_never_empty :
    (∀ reviews : List Review, reviewContents reviews = reviews.map reviewText) ∧
    (∀ reviews : List Review, (reviewContents reviews).length = reviews.length) ∧
    (∀ review : Review, 0 < (reviewText review).length) ∧
    reviewText { rating := none, title := none, content := none } =
      "[Rating: 0/5] \n".data := by
  have hpos : ∀ review : Review, 0 < (reviewText review).length := by
    intro review
    unfold reviewText
    simp [List.length_append]
  have hall : ∀ reviews : List Review, reviewContents reviews = reviews.map reviewText := by
    intro reviews
    unfold reviewContents
    rw [List.filter_eq_self.mpr]
    intro a ha
    rcases List.mem_map.mp ha with ⟨r, _, rfl⟩
    simpa using hpos r
  refine ⟨hall, fun reviews => by rw [hall, List.length_map], hpos, rfl⟩

/-! ## Helper lemmas about the identifier extractor -/

theorem idDigitsAfter_some {cs g : List Char} (h : idDigitsAfter cs = some g) :
    idGroupAtPos cs 0 ∧ g = ((cs.drop 3).takeWhile isDigitChar).take 12 := by
  match cs with
  | [] => simp [idDigitsAfter] at h
  | [a] => simp [idDigitsAfter] at h
  | [a, b] => simp [idDigitsAfter] at h
  | a :: b :: c :: rest =>
    simp only [idDigitsAfter] at h
    by_cases habc : a = '/' ∧ b = 'i' ∧ c = 'd'
    · rw [if_pos habc] at h
      obtain ⟨rfl, rfl, rfl⟩ := habc
      by_cases h7 : 7 ≤ (rest.takeWhile isDigitChar).length
      · rw [if_pos h7] at h
        injection h with h
        subst h
        refine ⟨⟨(rest.takeWhile isDigitChar).take 12,
          (rest.takeWhile isDigitChar).drop 12 ++ rest.dropWhile isDigitChar, ?_, ?_, ?_, ?_⟩,
          rfl⟩
        · rw [List.drop_zero, ← List.append_assoc, List.take_append_drop,
            List.takeWhile_append_dropWhile]
        · rw [List.length_take]
          omega
        · rw [List.length_take]
          omega
        · exact List.all_eq_true.mpr fun x hx =>
            List.mem_takeWhile_imp (List.mem_of_mem_take hx)
      · rw [if_neg h7] at h
        exact absurd h (by simp)
    · rw [if_neg habc] at h
      exact absurd h (by simp)

theorem idGroupAtPos_zero_isSome {cs : List Char} (h : idGroupAtPos cs 0) :
    (idDigitsAfter cs).isSome = true := by
  obtain ⟨ds, post, heq, h7, _, hdig⟩ := h
  rw [List.drop_zero] at heq
  subst heq
  have htw : (ds ++ post).takeWhile isDigitChar = ds ++ post.takeWhile isDigitChar :=
    List.takeWhile_append_of_pos (List.all_eq_true.mp hdig)
  simp only [idDigitsAfter]
  rw [if_pos (by simp)]
  rw [if_pos (by rw [htw, List.length_append]; omega)]
  rfl

theorem idGroupAtPos_cons {c : Char} {rest : List Char} {j : Nat} :
    idGroupAtPos (c :: rest) (j + 1) ↔ idGroupAtPos rest j := by
  unfold idGroupAtPos
  rw [List.drop_succ_cons]

theorem matchIdUrl_eq_none {cs : List Char} (h : ¬ hasIdGroup cs) :
    matchIdUrl cs = none := by
  induction cs with
  | nil => rfl
  | cons c rest ih =>
    have h0 : idDigitsAfter (c :: rest) = none := by
      cases hd : idDigitsAfter (c :: rest) with
      | none => rfl
      | some g => exact absurd ⟨0, (idDigitsAfter_some hd).1⟩ h
    simp only [matchIdUrl, h0]
    exact ih fun hg => by
      obtain ⟨i, hi⟩ := hg
      exact h ⟨i + 1, idGroupAtPos_cons.mpr hi⟩

theorem matchIdUrl_eq_some {cs g : List Char} (h : matchIdUrl cs = some g) :
    ∃ i, (∀ j, j < i → ¬ idGroupAtPos cs j) ∧ idGroupAtPos cs i ∧
      g = ((cs.drop (i + 3)).takeWhile isDigitChar).take 12 := by
  induction cs with
  | nil => simp [matchIdUrl] at h
  | cons c rest ih =>
    cases hd : idDigitsAfter (c :: rest) with
    | some g0 =>
      have hgg : g0 = g := by
        simp only [matchIdUrl, hd] at h
        exact Option.some_inj.mp h
      subst hgg
      obtain ⟨hpos, hg⟩ := idDigitsAfter_some hd
      exact ⟨0, fun j hj => absurd hj (Nat.not_lt_zero j), hpos, hg⟩
    | none =>
      have h2 : matchIdUrl rest = some g := by
        simpa only [matchIdUrl, hd] using h
      obtain ⟨i, hlt, hpos, hg⟩ := ih h2
      refine ⟨i + 1, ?_, idGroupAtPos_cons.mpr hpos, ?_⟩
      · intro j hj
        cases j with
        | zero =>
          intro hcontra
          have := idGroupAtPos_zero_isSome hcontra
          rw [hd] at this
          exact absurd this (by simp)
        | succ j2 =>
          intro hcontra
          exact hlt j2 (by omega) (idGroupAtPos_cons.mp hcontra)
      · rw [show i + 1 + 3 = (i + 3) + 1 by omega, List.drop_succ_cons]
        exact hg

theorem matchIdUrl_isSome {cs : List Char} (h : hasIdGroup cs) :
    (matchIdUrl cs).isSome = true := by
  induction cs with
  | nil =>
    obtain ⟨i, ds, post, heq, _, _, _⟩ := h
    simp at heq
  | cons c rest ih =>
    cases hd : idDigitsAfter (c :: rest) with
    | some g0 => simp [matchIdUrl, hd]
    | none =>
      obtain ⟨i, hi⟩ := h
      cases i with
      | zero =>
        have := idGroupAtPos_zero_isSome hi
        rw [hd] at this
        exact absurd this (by simp)
      | succ j =>
        simpa only [matchIdUrl, hd] using ih ⟨j, idGroupAtPos_cons.mp hi⟩

/-! ## C6 -/

/-- C6: confirmed. For every input whose trimmed value is 7 to 12 digits,
the extractor returns exactly the trimmed string. For every other input
containing `/id` followed by 7 to 12 digits, it returns the digit group of
the leftmost such occurrence (greedy, at most 12 digits). For all
remaining inputs the extractor yields nothing and the request fails with a
`ValidationError`, answered as status 400 with an error body. -/
theorem C6_identifier_extractor :
    (∀ input, matchesAppId (jsTrim input) = true →
      extractAppId input = some (jsTrim input)) ∧
    (∀ input, matchesAppId (jsTrim input) = false → hasIdGroup input →
      ∃ i, (∀ j, j < i → ¬ idGroupAtPos input j) ∧ idGroupAtPos input i ∧
        extractAppId input = some (((input.drop (i + 3)).takeWhile isDigitChar).take 12)) ∧
    (∀ input, matchesAppId (jsTrim input) = false → ¬ hasIdGroup input →
      extractAppId input = none ∧
      ∀ env : Env, env.body = Except.ok (some input) →
        ∃ m, postCore env = Except.error (PostError.app (AppError.validation m)) ∧
          POST env = (400, errorBody m)) := by
  refine ⟨?_, ?_, ?_⟩
  · intro input hm
    unfold extractAppId
    rw [if_pos hm]
  · intro input hm hg
    have hs := matchIdUrl_isSome hg
    obtain ⟨g, hgeq⟩ := Option.isSome_iff_exists.mp hs
    obtain ⟨i, hlt, hpos, hgval⟩ := matchIdUrl_eq_some hgeq
    refine ⟨i, hlt, hpos, ?_⟩
    unfold extractAppId
    rw [if_neg (by rw [hm]; exact Bool.false_ne_true), hgeq, hgval]
  · intro input hm hg
    have hnone : extractAppId input = none := by
      unfold extractAppId
      rw [if_neg (by rw [hm]; exact Bool.false_ne_true)]
      exact matchIdUrl_eq_none hg
    refine ⟨hnone, ?_⟩
    intro env henv
    by_cases hie : input.isEmpty
    · have hcore : postCore env =
          Except.error (PostError.app (AppError.validation missingInputMsg)) := by
        unfold postCore
        rw [henv]
        simp [hie]
      exact ⟨missingInputMsg, hcore, by unfold POST; rw [hcore]; rfl⟩
    · have hcore : postCore env =
          Except.error (PostError.app (AppError.validation invalidInputMsg)) := by
        unfold postCore
        rw [henv]
        simp [hie, hnone]
      exact ⟨invalidInputMsg, hcore, by unfold POST; rw [hcore]; rfl⟩

/-- C6 witness: the extractor theorem applied at two concrete inputs,
discharging the hypotheses there: a bare 9-digit identifier is returned
trimmed, and a URL-shaped input yields its digit group. -/
theorem C6_identifier_extractor_witness :
    extractAppId "284882215".data = some (jsTrim "284882215".data) ∧
    (∃ i, (∀ j, j < i → ¬ idGroupAtPos "x/id1234567".data j) ∧
      idGroupAtPos "x/id1234567".data i ∧
      extractAppId "x/id1234567".data =
        some ((("x/id1234567".data.drop (i + 3)).takeWhile isDigitChar).take 12)) :=
  ⟨C6_identifier_extractor.1 "284882215".data (by decide),
   C6_identifier_extractor.2.1 "x/id1234567".data (by decide)
     (by
      unfold hasIdGroup idGroupAtPos
      exact ⟨1, "1234567".data, [], by decide, by decide, by decide, by decide⟩)⟩

/-! ## Helper lemmas about the response validator -/

theorem jsGetProp_ne_null {v : Json} (hnn : v ≠ Json.null) (key : List Char) :
    jsGetProp v key = some (propLookup v key) := by
  cases v with
  | null => exact absurd rfl hnn
  | bool b => rfl
  | num m e => rfl
  | str s => rfl
  | arr xs => rfl
  | obj fs => rfl

theorem parseAnalysis_ok {response : List Char} {v : Json}
    (h : jsonParse (cleanResponse response) = some v) (hnn : v ≠ Json.null) :
    parseAnalysis response = Except.ok
      { themes := jsOrEmptyArr (propLookup v "themes".data),
        prioritizedThemes := jsOrEmptyArr (propLookup v "prioritizedThemes".data) } := by
  cases v with
  | null => exact absurd rfl hnn
  | bool b => unfold parseAnalysis; rw [h]; rfl
  | num m e => unfold parseAnalysis; rw [h]; rfl
  | str s => unfold parseAnalysis; rw [h]; rfl
  | arr xs => unfold parseAnalysis; rw [h]; rfl
  | obj fs => unfold parseAnalysis; rw [h]; rfl

theorem parseAnalysis_err {response : List Char}
    (h : jsonParse (cleanResponse response) = none ∨
      jsonParse (cleanResponse response) = some Json.null) :
    parseAnalysis response = Except.error (AppError.validation parseFailMsg) := by
  unfold parseAnalysis
  cases h with
  | inl h => rw [h]
  | inr h => rw [h]; rfl

/-! ## C2 -/

/-- C2: counterexample. The payload whose `themes` field is the string
"hi" parses successfully, and the projection passes the string through
unchanged: the resulting `themes` field is present but not an array, so
a present non-array field is not replaced by the empty array. -/
theorem C2_projection_counterexample :
    parseAnalysis strThemesResponse =
      Except.ok { themes := Json.str "hi".data, prioritizedThemes := Json.arr [] } ∧
    Json.isArr (Json.str "hi".data) = false := by
  exact ⟨rfl, rfl⟩

/-- C2: amended. On a successfully parsed non-null payload the result
always carries both fields: a field that is absent, or present but falsy
(null, false, zero, or the empty string), is replaced by the empty array;
a present truthy value, array or not, is passed through unchanged. -/
theorem C2_projection_amended (response : List Char) (v : Json)
    (hparse : jsonParse (cleanResponse response) = some v) (hnn : v ≠ Json.null) :
    ∃ a, parseAnalysis response = Except.ok a ∧
      (propLookup v "themes".data = none → a.themes = Json.arr []) ∧
      (∀ t, propLookup v "themes".data = some t → truthy t = false →
        a.themes = Json.arr []) ∧
      (∀ t, propLookup v "themes".data = some t → truthy t = true → a.themes = t) ∧
      (propLookup v "prioritizedThemes".data = none → a.prioritizedThemes = Json.arr []) ∧
      (∀ p, propLookup v "prioritizedThemes".data = some p → truthy p = false →
        a.prioritizedThemes = Json.arr []) ∧
      (∀ p, propLookup v "prioritizedThemes".data = some p → truthy p = true →
        a.prioritizedThemes = p) := by
  refine ⟨_, parseAnalysis_ok hparse hnn, ?_, ?_, ?_, ?_, ?_, ?_⟩
  · intro h
    simp only [jsOrEmptyArr, h]
  · intro t ht htr
    simp only [jsOrEmptyArr, ht, htr, Bool.false_eq_true, if_false]
  · intro t ht htr
    simp only [jsOrEmptyArr, ht, htr, if_true]
  · intro h
    simp only [jsOrEmptyArr, h]
  · intro p hp htr
    simp only [jsOrEmptyArr, hp, htr, Bool.false_eq_true, if_false]
  · intro p hp htr
    simp only [jsOrEmptyArr, hp, htr, if_true]

/-- C2 witness: the amended theorem applied to the concrete string-themes
payload, discharging the parse and non-null hypotheses there. -/
theorem C2_projection_witness :
    ∃ a, parseAnalysis strThemesResponse = Except.ok a ∧
      (propLookup strThemesJson "themes".data = none → a.themes = Json.arr []) ∧
      (∀ t, propLookup strThemesJson "themes".data = some t → truthy t = false →
        a.themes = Json.arr []) ∧
      (∀ t, propLookup strThemesJson "themes".data = some t → truthy t = true →
        a.themes = t) ∧
      (propLookup strThemesJson "prioritizedThemes".data = none →
        a.prioritizedThemes = Json.arr []) ∧
      (∀ p, propLookup strThemesJson "prioritizedThemes".data = some p →
        truthy p = false → a.prioritizedThemes = Json.arr []) ∧
      (∀ p, propLookup strThemesJson "prioritizedThemes".data = some p →
        truthy p = true → a.prioritizedThemes = p) :=
  C2_projection_amended strThemesResponse strThemesJson rfl
    (fun h => Json.noConfusion h)

/-! ## C8 -/

/-- C8: counterexample. The payload `null` is valid JSON and parses
successfully, yet the validator raises `ValidationError`: the subsequent
field access on the null value throws inside the same try block. So a
`ValidationError` is not raised only when parsing fails. -/
theorem C8_validator_counterexample :
    jsonParse (cleanResponse nullResponse) = some Json.null ∧
    parseAnalysis nullResponse = Except.error (AppError.validation parseFailMsg) := by
  exact ⟨rfl, rfl⟩

/-- C8: amended. The validator trims, strips a fence marker, and parses;
it raises an error exactly when parsing fails or the parsed value is JSON
null (whose field access throws into the same catch), every such error
being the `ValidationError` with the fixed parse-failure message. The two
concrete sentences of the claim hold: the fenced empty-arrays payload
yields empty `themes` and `prioritizedThemes`, and `not json` fails. -/
theorem C8_validator_amended :
    (∀ response, (∃ e, parseAnalysis response = Except.error e) ↔
      (jsonParse (cleanResponse response) = none ∨
        jsonParse (cleanResponse response) = some Json.null)) ∧
    (∀ response e, parseAnalysis response = Except.error e →
      e = AppError.validation parseFailMsg) ∧
    parseAnalysis fencedEmptyResponse =
      Except.ok { themes := Json.arr [], prioritizedThemes := Json.arr [] } ∧
    parseAnalysis notJsonResponse = Except.error (AppError.validation parseFailMsg) := by
  have herr : ∀ response e, parseAnalysis response = Except.error e →
      (jsonParse (cleanResponse response) = none ∨
        jsonParse (cleanResponse response) = some Json.null) ∧
      e = AppError.validation parseFailMsg := by
    intro response e h
    cases hj : jsonParse (cleanResponse response) with
    | none =>
      refine ⟨Or.inl rfl, ?_⟩
      rw [parseAnalysis_err (Or.inl hj)] at h
      exact (Except.error.inj h).symm
    | some v =>
      cases hv : v with
      | null =>
        subst hv
        refine ⟨Or.inr rfl, ?_⟩
        rw [parseAnalysis_err (Or.inr hj)] at h
        exact (Except.error.inj h).symm
      | bool b =>
        subst hv
        rw [parseAnalysis_ok hj (fun hc => Json.noConfusion hc)] at h
        exact absurd h (by simp)
      | num m ex =>
        subst hv
        rw [parseAnalysis_ok hj (fun hc => Json.noConfusion hc)] at h
        exact absurd h (by simp)
      | str s =>
        subst hv
        rw [parseAnalysis_ok hj (fun hc => Json.noConfusion hc)] at h
        exact absurd h (by simp)
      | arr xs =>
        subst hv
        rw [parseAnalysis_ok hj (fun hc => Json.noConfusion hc)] at h
        exact absurd h (by simp)
      | obj fs =>
        subst hv
        rw [parseAnalysis_ok hj (fun hc => Json.noConfusion hc)] at h
        exact absurd h (by simp)
  refine ⟨?_, fun response e h => (herr response e h).2, rfl, rfl⟩
  intro response
  constructor
  · rintro ⟨e, he⟩
    exact (herr response e he).1
  · intro h
    exact ⟨AppError.validation parseFailMsg, parseAnalysis_err h⟩

/-- C8 witness: the amended theorem applied to the concrete `not json`
payload, discharging the parse-failure hypothesis there. -/
theorem C8_validator_witness :
    ∃ e, parseAnalysis notJsonResponse = Except.error e :=
  (C8_validator_amended.1 notJsonResponse).mpr (Or.inl rfl)

/-! ## C10 -/

/-- C10: confirmed. When the completion endpoint yields no message
content, or empty text, the defaulted raw response is the empty string,
which fails to parse: the validator raises `ValidationError` and the
request is answered with status 400 (not 503) and empty result arrays. -/
theorem C10_empty_completion_is_400 (env : Env) (input : List Char)
    (hbody : env.body = Except.ok (some input))
    (hid : (extractAppId input).isSome = true)
    (hkey : env.apiKeyConfigured = true)
    (hcomp : ∀ blocks, env.completion blocks = CompletionOutcome.success none ∨
      env.completion blocks = CompletionOutcome.success (some [])) :
    postCore env = Except.error (PostError.app (AppError.validation parseFailMsg)) ∧
    POST env = (400, errorBody parseFailMsg) := by
  have hne : input.isEmpty = false := by
    cases hi : input.isEmpty
    · rfl
    · rw [List.isEmpty_iff] at hi
      subst hi
      exact absurd hid (by simp [extractAppId, jsTrim, matchesAppId, matchIdUrl])
  obtain ⟨appId, hext⟩ := Option.isSome_iff_exists.mp hid
  have hanalyze : analyzeReviewsWithGPT env
      (reviewContents (fetchAllReviews env.pages).1) =
      Except.error (AppError.validation parseFailMsg) := by
    unfold analyzeReviewsWithGPT
    rw [hkey]
    simp only [Bool.true_eq_false, if_false]
    cases hcomp (reduceReviews (reviewContents (fetchAllReviews env.pages).1)) with
    | inl hc => rw [hc]; rfl
    | inr hc => rw [hc]; rfl
  have hcore : postCore env =
      Except.error (PostError.app (AppError.validation parseFailMsg)) := by
    unfold postCore
    rw [hbody]
    simp only [hne, Bool.false_eq_true, if_false, hext, hanalyze]
  exact ⟨hcore, by unfold POST; rw [hcore]; rfl⟩

/-- C10 witness: the theorem applied at the concrete environment whose
completion succeeds with absent content, all hypotheses discharged
there. -/
theorem C10_empty_completion_witness :
    postCore envEmptyCompletion =
      Except.error (PostError.app (AppError.validation parseFailMsg)) ∧
    POST envEmptyCompletion = (400, errorBody parseFailMsg) :=
  C10_empty_completion_is_400 envEmptyCompletion "284882215".data rfl (by decide) rfl
    (fun blocks => Or.inl rfl)

/-! ## C7 -/

/-- C7: confirmed. Every failure of the request operation is answered
with the structured body carrying the error message and empty `themes`
and `prioritizedThemes` arrays, with the status determined by the error
class: 400 for a `ValidationError`, 503 for an `APIConnectionError`, 500
for an unclassified exception; in general an `AppError` is reported with
its own status and message. -/
theorem C7_failure_responses (env : Env) :
    (∀ m, postCore env = Except.error (PostError.app (AppError.validation m)) →
      POST env = (400, errorBody m)) ∧
    (∀ m, postCore env = Except.error (PostError.app (AppError.apiConnection m)) →
      POST env = (503, errorBody m)) ∧
    (postCore env = Except.error PostError.unclassified →
      POST env = (500, errorBody "Failed to process request".data)) ∧
    (∀ e, postCore env = Except.error (PostError.app e) →
      POST env = (AppError.status e, errorBody (AppError.message e))) := by
  refine ⟨?_, ?_, ?_, ?_⟩
  · intro m h
    unfold POST
    rw [h]
    rfl
  · intro m h
    unfold POST
    rw [h]
    rfl
  · intro h
    unfold POST
    rw [h]
  · intro e h
    unfold POST
    rw [h]

/-- C7 witness: the mapping theorem applied at two concrete environments,
discharging the failure hypotheses there: an unparsable request body is
answered 500, an upstream completion failure 503. -/
theorem C7_failure_responses_witness :
    POST envBadBody = (500, errorBody "Failed to process request".data) ∧
    POST envUpstreamFailure =
      (503, errorBody "Failed to analyze reviews".data) :=
  ⟨(C7_failure_responses envBadBody).2.2.1 rfl,
   (C7_failure_responses envUpstreamFailure).2.1 "Failed to analyze reviews".data rfl⟩

end AppGaps
